import Mathlib

/-!
Shallow embedding of `src/starter_code.py` (search performance assignment:
linear search, iterative and recursive binary search, a benchmark runner and
a break-even analysis), together with proofs about the embedded functions.

Modelling conventions:
* List elements and targets are integers (`ℤ`); the Python code only compares
  elements with `==` and `<`, so any linearly ordered type with decidable
  comparison would serve equally.
* Python `int` arithmetic is exact and is embedded as `ℤ`; Python `//` is
  floor division, embedded as `Int.fdiv`.
* Measured wall-clock durations (Python floats) are embedded as exact
  rationals `ℚ`: every claim is about the arithmetic the code performs on
  them, not about floating-point rounding.
* `data[i]` is `List.getD data i.toNat 0`; every index the searches read is
  proved non-negative and in range, so the `0` default is never consulted.
-/

/-- Python list indexing `data[i]` as used by the searches (all indices they
read are proved in range; the default `0` is never consulted). -/
def pyget (data : List ℤ) (i : ℤ) : ℤ := data.getD i.toNat 0

/-- `middle = (left + right) // 2` (lines 64 and 104 of the source):
Python `//` is floor division. -/
def middle_idx (left right : ℤ) : ℤ := Int.fdiv (left + right) 2

/-- The number of candidate indices in the closed interval `[left, right]`:
the termination measure of both binary searches. -/
def intervalSize (left right : ℤ) : ℕ := (right + 1 - left).toNat

lemma middle_idx_bounds {left right : ℤ} (h : left ≤ right) :
    left ≤ middle_idx left right ∧ middle_idx left right ≤ right := by
  have he : middle_idx left right = (left + right) / 2 :=
    Int.fdiv_eq_ediv _ (by norm_num)
  rw [he]
  omega

/-- The `while left <= right` loop of `binary_search_iterative`
(lines 63 to 71 of the source), with the mutable `left`/`right` state as
parameters; each iteration of the Python loop is one tail call. -/
def binary_search_iter_loop (data : List ℤ) (target : ℤ) (left right : ℤ) : ℤ :=
  if h : left ≤ right then
    if pyget data (middle_idx left right) = target then middle_idx left right
    else if pyget data (middle_idx left right) < target then
      binary_search_iter_loop data target (middle_idx left right + 1) right
    else
      binary_search_iter_loop data target left (middle_idx left right - 1)
  else -1
termination_by intervalSize left right
decreasing_by
  · have := middle_idx_bounds h
    unfold intervalSize
    omega
  · have := middle_idx_bounds h
    unfold intervalSize
    omega

/-- `binary_search_iterative` (lines 61 to 71): the loop is entered with
`left = 0` and `right = len(data) - 1`. -/
def binary_search_iterative (data : List ℤ) (target : ℤ) : ℤ :=
  binary_search_iter_loop data target 0 ((data.length : ℤ) - 1)

/-- The body of `binary_search_recursive` once `left` and `right` are set
(lines 101 to 111 of the source). -/
def binary_search_rec_aux (data : List ℤ) (target : ℤ) (left right : ℤ) : ℤ :=
  if h : left > right then -1
  else
    if pyget data (middle_idx left right) = target then middle_idx left right
    else if pyget data (middle_idx left right) < target then
      binary_search_rec_aux data target (middle_idx left right + 1) right
    else
      binary_search_rec_aux data target left (middle_idx left right - 1)
termination_by intervalSize left right
decreasing_by
  · have := middle_idx_bounds (by omega : left ≤ right)
    unfold intervalSize
    omega
  · have := middle_idx_bounds (by omega : left ≤ right)
    unfold intervalSize
    omega

/-- `binary_search_recursive(data, target)` with the default bounds: lines
96 to 99 replace the `None` defaults by `left = 0`, `right = len(data) - 1`. -/
def binary_search_recursive (data : List ℤ) (target : ℤ) : ℤ :=
  binary_search_rec_aux data target 0 ((data.length : ℤ) - 1)

/-- The `for i in range(len(data))` loop of `linear_search`
(lines 32 to 35 of the source), starting from index `i`. -/
def linear_search_from (data : List ℤ) (target : ℤ) (i : ℕ) : ℤ :=
  if h : i < data.length then
    if data.get ⟨i, h⟩ = target then (i : ℤ)
    else linear_search_from data target (i + 1)
  else -1
termination_by data.length - i

/-- `linear_search` (lines 11 to 35). -/
def linear_search (data : List ℤ) (target : ℤ) : ℤ :=
  linear_search_from data target 0

/-- The sequence of indices at which the loop of `binary_search_iterative`
reads `data[middle]`, in order: lines 63 to 71 with each comparison recorded. -/
def binary_search_iter_probes (data : List ℤ) (target : ℤ) (left right : ℤ) : List ℤ :=
  if h : left ≤ right then
    middle_idx left right ::
      (if pyget data (middle_idx left right) = target then []
       else if pyget data (middle_idx left right) < target then
         binary_search_iter_probes data target (middle_idx left right + 1) right
       else binary_search_iter_probes data target left (middle_idx left right - 1))
  else []
termination_by intervalSize left right
decreasing_by
  · have := middle_idx_bounds h
    unfold intervalSize
    omega
  · have := middle_idx_bounds h
    unfold intervalSize
    omega

/-- Probe sequence of `binary_search_iterative` with its initial bounds. -/
def binary_search_iterative_probes (data : List ℤ) (target : ℤ) : List ℤ :=
  binary_search_iter_probes data target 0 ((data.length : ℤ) - 1)

/-- The sequence of indices at which `binary_search_recursive` reads
`data[middle]`, in order: lines 101 to 111 with each comparison recorded. -/
def binary_search_rec_probes (data : List ℤ) (target : ℤ) (left right : ℤ) : List ℤ :=
  if h : left > right then []
  else
    middle_idx left right ::
      (if pyget data (middle_idx left right) = target then []
       else if pyget data (middle_idx left right) < target then
         binary_search_rec_probes data target (middle_idx left right + 1) right
       else binary_search_rec_probes data target left (middle_idx left right - 1))
termination_by intervalSize left right
decreasing_by
  · have := middle_idx_bounds (by omega : left ≤ right)
    unfold intervalSize
    omega
  · have := middle_idx_bounds (by omega : left ≤ right)
    unfold intervalSize
    omega

/-- Probe sequence of `binary_search_recursive` with its default bounds. -/
def binary_search_recursive_probes (data : List ℤ) (target : ℤ) : List ℤ :=
  binary_search_rec_probes data target 0 ((data.length : ℤ) - 1)

/-- The sequence of indices examined by `linear_search` starting at `i`. -/
def linear_search_probes_from (data : List ℤ) (target : ℤ) (i : ℕ) : List ℕ :=
  if h : i < data.length then
    i :: (if data.get ⟨i, h⟩ = target then []
          else linear_search_probes_from data target (i + 1))
  else []
termination_by data.length - i

/-- Probe sequence of `linear_search`. -/
def linear_search_probes (data : List ℤ) (target : ℤ) : List ℕ :=
  linear_search_probes_from data target 0

/-- The returned index is a genuine hit: non-negative, in range, and the
element there equals the target. -/
def found_at (data : List ℤ) (target : ℤ) (i : ℤ) : Prop :=
  0 ≤ i ∧ i.toNat < data.length ∧ data.getD i.toNat 0 = target

instance (data : List ℤ) (target : ℤ) (i : ℤ) : Decidable (found_at data target i) := by
  unfold found_at
  infer_instance

/-- Python `int(q)` applied to a non-integral number: truncation toward zero. -/
def pyInt (q : ℚ) : ℤ := if 0 ≤ q then ⌊q⌋ else ⌈q⌉

/-- The possible observable outcomes of the break-even analysis block: a
printed break-even count, an explicit "never breaks even" notice, or no
break-even output at all. -/
inductive BreakEvenResult where
  | report (searches : ℤ)
  | neverBreaksEven
  | silent
deriving DecidableEq

/-- The break-even computation of `analyze_preprocessing_costs` (lines 251 to
255 of the source): `time_saved_per_search = linear_time - binary_time`, and
the break-even count `int(sort_time / time_saved_per_search)` is printed only
when `time_saved_per_search > 0`; in every other case the `if` block is
skipped and the function prints no break-even output (`silent`). -/
def break_even_report (sort_time linear_time binary_time : ℚ) : BreakEvenResult :=
  let time_saved_per_search := linear_time - binary_time
  if time_saved_per_search > 0 then
    .report (pyInt (sort_time / time_saved_per_search))
  else .silent

/-- Modelled from the spec: the analyzer of section 4.5 must report the
ceiling of preprocessing-cost / savings when savings is positive, and an
explicit "no break-even" outcome when savings is non-positive. Present for
comparison only; `break_even_report` above is what the code does. -/
def break_even_analyzer_spec (sort_time linear_time binary_time : ℚ) :
    BreakEvenResult :=
  let savings := linear_time - binary_time
  if savings > 0 then .report ⌈sort_time / savings⌉
  else .neverBreaksEven

/-- Python exceptions relevant to the benchmark runner: the error raised by
`/` on a zero denominator, and the error an explicit precondition check would
raise. -/
inductive PyExc where
  | zeroDivisionError
  | preconditionError
deriving DecidableEq

/-- Python float division `a / b`: raises `ZeroDivisionError` when `b = 0`;
it never produces NaN or infinity. -/
def pydiv (a b : ℚ) : Except PyExc ℚ :=
  if b = 0 then .error .zeroDivisionError else .ok (a / b)

/-- `benchmark_algorithm` (lines 163 to 181 of the source): runs the batch,
takes the wall-clock difference `elapsed = end - start` (the clock reading is
abstracted into the parameter `elapsed`), and returns
`elapsed / len(targets)`. There is no guard on the batch: the division itself
is the only place an empty batch can fail. -/
def benchmark_algorithm (elapsed : ℚ) (targets : List ℤ) : Except PyExc ℚ :=
  pydiv elapsed (targets.length : ℚ)

/-- Modelled from the spec: the runner of section 4.4 must "fail with a
precondition error when the batch is empty (division by zero must be
prevented)", i.e. an explicit emptiness check runs before any division.
Present for comparison only; `benchmark_algorithm` above is what the code
does. -/
def benchmark_runner_spec (elapsed : ℚ) (targets : List ℤ) : Except PyExc ℚ :=
  if targets.length = 0 then .error .preconditionError
  else .ok (elapsed / (targets.length : ℚ))

/-! ### Basic bridging lemmas -/

lemma pyget_eq_get (data : List ℤ) (i : ℤ) (h : i.toNat < data.length) :
    pyget data i = data.get ⟨i.toNat, h⟩ := by
  simp [pyget, List.getD_eq_getElem?_getD, List.getElem?_eq_getElem h]

lemma sorted_getD_mono (data : List ℤ) (hs : data.Sorted (· ≤ ·)) {i j : ℕ}
    (hij : i ≤ j) (hj : j < data.length) :
    data.getD i 0 ≤ data.getD j 0 := by
  have hi : i < data.length := lt_of_le_of_lt hij hj
  have hf : (⟨i, hi⟩ : Fin data.length) ≤ ⟨j, hj⟩ := hij
  have := hs.rel_get_of_le hf
  simpa [List.getD_eq_getElem?_getD, List.getElem?_eq_getElem, hi, hj] using this

lemma sorted_pyget_mono (data : List ℤ) (hs : data.Sorted (· ≤ ·)) {i j : ℤ}
    (h0 : 0 ≤ i) (hij : i ≤ j) (hj : j < (data.length : ℤ)) :
    pyget data i ≤ pyget data j := by
  have hjn : j.toNat < data.length := by omega
  have hin : i.toNat ≤ j.toNat := by omega
  exact sorted_getD_mono data hs hin hjn

/-! ### Soundness of the binary searches (no sortedness assumed) -/

lemma rec_aux_sound (data : List ℤ) (target : ℤ) (left right : ℤ) :
    0 ≤ left → right < (data.length : ℤ) →
      binary_search_rec_aux data target left right = -1 ∨
      found_at data target (binary_search_rec_aux data target left right) := by
  induction left, right using binary_search_rec_aux.induct data target with
  | case1 l r hgt =>
    intro _ _
    left
    rw [binary_search_rec_aux]
    simp [hgt]
  | case2 l r hgt heq =>
    intro hl hr
    right
    have hm := middle_idx_bounds (by omega : l ≤ r)
    rw [binary_search_rec_aux]
    simp only [dif_neg hgt, if_pos heq]
    exact ⟨by omega, by omega, heq⟩
  | case3 l r hgt hne hlt ih =>
    intro hl hr
    have hm := middle_idx_bounds (by omega : l ≤ r)
    rw [binary_search_rec_aux]
    simp only [dif_neg hgt, if_neg hne, if_pos hlt]
    exact ih (by omega) hr
  | case4 l r hgt hne hnlt ih =>
    intro hl hr
    have hm := middle_idx_bounds (by omega : l ≤ r)
    rw [binary_search_rec_aux]
    simp only [dif_neg hgt, if_neg hne, if_neg hnlt]
    exact ih hl (by omega)

/-! ### Completeness of the binary searches on sorted data -/

lemma rec_aux_not_found (data : List ℤ) (target : ℤ) (hs : data.Sorted (· ≤ ·))
    (left right : ℤ) :
    0 ≤ left → right < (data.length : ℤ) →
      binary_search_rec_aux data target left right = -1 →
      ∀ j : ℤ, left ≤ j → j ≤ right → pyget data j ≠ target := by
  induction left, right using binary_search_rec_aux.induct data target with
  | case1 l r hgt =>
    intro _ _ _ j hj1 hj2
    omega
  | case2 l r hgt heq =>
    intro hl hr hres
    exfalso
    have hm := middle_idx_bounds (by omega : l ≤ r)
    rw [binary_search_rec_aux] at hres
    simp only [dif_neg hgt, if_pos heq] at hres
    omega
  | case3 l r hgt hne hlt ih =>
    intro hl hr hres j hj1 hj2
    have hm := middle_idx_bounds (by omega : l ≤ r)
    rw [binary_search_rec_aux] at hres
    simp only [dif_neg hgt, if_neg hne, if_pos hlt] at hres
    by_cases hj : middle_idx l r + 1 ≤ j
    · exact ih (by omega) hr hres j hj hj2
    · have hmono : pyget data j ≤ pyget data (middle_idx l r) :=
        sorted_pyget_mono data hs (by omega) (by omega) (by omega)
      intro hc
      rw [hc] at hmono
      omega
  | case4 l r hgt hne hnlt ih =>
    intro hl hr hres j hj1 hj2
    have hm := middle_idx_bounds (by omega : l ≤ r)
    rw [binary_search_rec_aux] at hres
    simp only [dif_neg hgt, if_neg hne, if_neg hnlt] at hres
    by_cases hj : j ≤ middle_idx l r - 1
    · exact ih hl (by omega) hres j hj1 hj
    · have hmono : pyget data (middle_idx l r) ≤ pyget data j :=
        sorted_pyget_mono data hs (by omega) (by omega) (by omega)
      intro hc
      rw [hc] at hmono
      have : pyget data (middle_idx l r) ≠ target := hne
      omega

/-! ### The iterative loop and the recursive function coincide -/

lemma iter_loop_eq_rec_aux (data : List ℤ) (target : ℤ) (left right : ℤ) :
    binary_search_iter_loop data target left right =
      binary_search_rec_aux data target left right := by
  induction left, right using binary_search_rec_aux.induct data target with
  | case1 l r hgt =>
    rw [binary_search_iter_loop, binary_search_rec_aux]
    rw [dif_neg (by omega : ¬ l ≤ r), dif_pos hgt]
  | case2 l r hgt heq =>
    rw [binary_search_iter_loop, binary_search_rec_aux]
    rw [dif_pos (by omega : l ≤ r), dif_neg hgt, if_pos heq, if_pos heq]
  | case3 l r hgt hne hlt ih =>
    rw [binary_search_iter_loop, binary_search_rec_aux]
    rw [dif_pos (by omega : l ≤ r), dif_neg hgt, if_neg hne, if_neg hne,
      if_pos hlt, if_pos hlt]
    exact ih
  | case4 l r hgt hne hnlt ih =>
    rw [binary_search_iter_loop, binary_search_rec_aux]
    rw [dif_pos (by omega : l ≤ r), dif_neg hgt, if_neg hne, if_neg hne,
      if_neg hnlt, if_neg hnlt]
    exact ih

lemma iter_probes_eq_rec_probes (data : List ℤ) (target : ℤ) (left right : ℤ) :
    binary_search_iter_probes data target left right =
      binary_search_rec_probes data target left right := by
  induction left, right using binary_search_rec_aux.induct data target with
  | case1 l r hgt =>
    rw [binary_search_iter_probes, binary_search_rec_probes]
    rw [dif_neg (by omega : ¬ l ≤ r), dif_pos hgt]
  | case2 l r hgt heq =>
    rw [binary_search_iter_probes, binary_search_rec_probes]
    rw [dif_pos (by omega : l ≤ r), dif_neg hgt, if_pos heq, if_pos heq]
  | case3 l r hgt hne hlt ih =>
    rw [binary_search_iter_probes, binary_search_rec_probes]
    rw [dif_pos (by omega : l ≤ r), dif_neg hgt, if_neg hne, if_neg hne,
      if_pos hlt, if_pos hlt]
    rw [ih]
  | case4 l r hgt hne hnlt ih =>
    rw [binary_search_iter_probes, binary_search_rec_probes]
    rw [dif_pos (by omega : l ≤ r), dif_neg hgt, if_neg hne, if_neg hne,
      if_neg hnlt, if_neg hnlt]
    rw [ih]

/-! ### Every probed index stays inside the current bounds -/

lemma rec_probes_bounded (data : List ℤ) (target : ℤ) (left right : ℤ) :
    ∀ m ∈ binary_search_rec_probes data target left right,
      left ≤ m ∧ m ≤ right := by
  induction left, right using binary_search_rec_aux.induct data target with
  | case1 l r hgt =>
    rw [binary_search_rec_probes, dif_pos hgt]
    intro m hm
    exact absurd hm (List.not_mem_nil m)
  | case2 l r hgt heq =>
    rw [binary_search_rec_probes, dif_neg hgt, if_pos heq]
    intro m hm
    have hm' : m = middle_idx l r := by simpa using hm
    have := middle_idx_bounds (by omega : l ≤ r)
    omega
  | case3 l r hgt hne hlt ih =>
    rw [binary_search_rec_probes, dif_neg hgt, if_neg hne, if_pos hlt]
    intro m hm
    have hb := middle_idx_bounds (by omega : l ≤ r)
    rcases List.mem_cons.mp hm with hm' | hm'
    · omega
    · have := ih m hm'
      omega
  | case4 l r hgt hne hnlt ih =>
    rw [binary_search_rec_probes, dif_neg hgt, if_neg hne, if_neg hnlt]
    intro m hm
    have hb := middle_idx_bounds (by omega : l ≤ r)
    rcases List.mem_cons.mp hm with hm' | hm'
    · omega
    · have := ih m hm'
      omega

/-- Each recursion step probes at most one more index than the size of the
interval it is given, so the number of comparisons is finite and bounded by
the interval size. -/
lemma rec_probes_length_le (data : List ℤ) (target : ℤ) (left right : ℤ) :
    (binary_search_rec_probes data target left right).length ≤
      intervalSize left right := by
  induction left, right using binary_search_rec_aux.induct data target with
  | case1 l r hgt =>
    rw [binary_search_rec_probes, dif_pos hgt]
    simp
  | case2 l r hgt heq =>
    rw [binary_search_rec_probes, dif_neg hgt, if_pos heq]
    have := middle_idx_bounds (by omega : l ≤ r)
    unfold intervalSize
    simp only [List.length_cons, List.length_nil]
    omega
  | case3 l r hgt hne hlt ih =>
    rw [binary_search_rec_probes, dif_neg hgt, if_neg hne, if_pos hlt]
    have := middle_idx_bounds (by omega : l ≤ r)
    unfold intervalSize at *
    simp only [List.length_cons]
    omega
  | case4 l r hgt hne hnlt ih =>
    rw [binary_search_rec_probes, dif_neg hgt, if_neg hne, if_neg hnlt]
    have := middle_idx_bounds (by omega : l ≤ r)
    unfold intervalSize at *
    simp only [List.length_cons]
    omega

/-! ### Characterization of the linear scan -/

/-- Scanning from index `i`, `linear_search_from` either returns `-1` and no
index at or after `i` matches, or it returns the first matching index at or
after `i`. -/
lemma lsf_spec (data : List ℤ) (target : ℤ) (i : ℕ) :
    (linear_search_from data target i = -1 ∧
      ∀ j : ℕ, i ≤ j → j < data.length → data.getD j 0 ≠ target) ∨
    (∃ k : ℕ, i ≤ k ∧ k < data.length ∧
      linear_search_from data target i = (k : ℤ) ∧ data.getD k 0 = target ∧
      ∀ j : ℕ, i ≤ j → j < k → data.getD j 0 ≠ target) := by
  induction i using linear_search_from.induct data target with
  | case1 i h heq =>
    right
    refine ⟨i, le_refl i, h, ?_, ?_, ?_⟩
    · rw [linear_search_from, dif_pos h, if_pos heq]
    · rw [List.getD_eq_getElem?_getD, List.getElem?_eq_getElem h]
      simpa using heq
    · intro j hj1 hj2
      omega
  | case2 i h hne ih =>
    have hstep : linear_search_from data target i =
        linear_search_from data target (i + 1) := by
      rw [linear_search_from, dif_pos h, if_neg hne]
    have hgetD : data.getD i 0 ≠ target := by
      rw [List.getD_eq_getElem?_getD, List.getElem?_eq_getElem h]
      simpa using hne
    rcases ih with ⟨hres, hall⟩ | ⟨k, hk1, hk2, hk3, hk4, hk5⟩
    · left
      refine ⟨hstep.trans hres, ?_⟩
      intro j hj1 hj2
      rcases Nat.eq_or_lt_of_le hj1 with hj | hj
      · rw [← hj]
        exact hgetD
      · exact hall j hj hj2
    · right
      refine ⟨k, by omega, hk2, hstep.trans hk3, hk4, ?_⟩
      intro j hj1 hj2
      rcases Nat.eq_or_lt_of_le hj1 with hj | hj
      · rw [← hj]
        exact hgetD
      · exact hk5 j hj hj2
  | case3 i h =>
    left
    refine ⟨?_, ?_⟩
    · rw [linear_search_from, dif_neg h]
    · intro j hj1 hj2
      omega

/-! ### Default-bound corollaries shared by the claim theorems -/

lemma getD_eq_getElem_of_lt (data : List ℤ) {k : ℕ} (h : k < data.length) :
    data.getD k 0 = data.get ⟨k, h⟩ := by
  simp [List.getD_eq_getElem?_getD, List.getElem?_eq_getElem h]

lemma pyget_natCast (data : List ℤ) (n : ℕ) : pyget data (n : ℤ) = data.getD n 0 := by
  simp [pyget]

lemma mem_of_found_at (data : List ℤ) (target i : ℤ) (h : found_at data target i) :
    target ∈ data := by
  obtain ⟨h0, h1, h2⟩ := h
  rw [getD_eq_getElem_of_lt data h1] at h2
  exact h2 ▸ List.get_mem data i.toNat h1

lemma iter_eq_rec_default (data : List ℤ) (target : ℤ) :
    binary_search_iterative data target = binary_search_recursive data target := by
  rw [binary_search_iterative, binary_search_recursive, iter_loop_eq_rec_aux]

lemma rec_default_sound (data : List ℤ) (target : ℤ) :
    binary_search_recursive data target = -1 ∨
    found_at data target (binary_search_recursive data target) := by
  rw [binary_search_recursive]
  exact rec_aux_sound data target 0 ((data.length : ℤ) - 1) (le_refl 0) (by omega)

lemma rec_eq_neg_one_of_not_mem (data : List ℤ) (target : ℤ)
    (hmem : target ∉ data) : binary_search_recursive data target = -1 := by
  rcases rec_default_sound data target with h | h
  · exact h
  · exact absurd (mem_of_found_at data target _ h) hmem

lemma rec_found_of_mem (data : List ℤ) (target : ℤ) (hs : data.Sorted (· ≤ ·))
    (hmem : target ∈ data) :
    found_at data target (binary_search_recursive data target) := by
  rcases rec_default_sound data target with h | h
  · exfalso
    rw [binary_search_recursive] at h
    have hnf := rec_aux_not_found data target hs 0 ((data.length : ℤ) - 1)
      (le_refl 0) (by omega) h
    obtain ⟨n, he⟩ := List.mem_iff_get.mp hmem
    have hn : (n : ℕ) < data.length := n.isLt
    have hne : pyget data ((n : ℕ) : ℤ) ≠ target := hnf _ (by omega) (by omega)
    apply hne
    rw [pyget_natCast, getD_eq_getElem_of_lt data hn]
    exact he
  · exact h

lemma linear_found_of_mem (data : List ℤ) (target : ℤ) (hmem : target ∈ data) :
    ∃ k : ℕ, linear_search data target = (k : ℤ) ∧ k < data.length ∧
      data.getD k 0 = target ∧ ∀ j : ℕ, j < k → data.getD j 0 ≠ target := by
  rcases lsf_spec data target 0 with ⟨_, hall⟩ | ⟨k, _, hk2, hk3, hk4, hk5⟩
  · exfalso
    obtain ⟨n, he⟩ := List.mem_iff_get.mp hmem
    have hn : (n : ℕ) < data.length := n.isLt
    apply hall n (Nat.zero_le n) hn
    rw [getD_eq_getElem_of_lt data hn]
    exact he
  · exact ⟨k, hk3, hk2, hk4, fun j hj => hk5 j (Nat.zero_le j) hj⟩

lemma linear_eq_neg_one_of_not_mem (data : List ℤ) (target : ℤ)
    (hmem : target ∉ data) : linear_search data target = -1 := by
  rcases lsf_spec data target 0 with ⟨hres, _⟩ | ⟨k, _, hk2, _, hk4, _⟩
  · exact hres
  · exfalso
    apply hmem
    rw [getD_eq_getElem_of_lt data hk2] at hk4
    exact hk4 ▸ List.get_mem data k hk2

/-! ### Claim theorems -/

/-- C1: for every ascending-sorted list `S` and target `T`, if `T` occurs in
`S` then both `binary_search_iterative` and `binary_search_recursive` (with
default bounds) return an index `i` with `0 ≤ i < len S` and `S[i] = T`; if
`T` does not occur, both return the sentinel `-1`. -/
theorem C1_binary_search_correct (data : List ℤ) (target : ℤ)
    (hs : data.Sorted (· ≤ ·)) :
    (target ∈ data →
      found_at data target (binary_search_iterative data target) ∧
      found_at data target (binary_search_recursive data target)) ∧
    (target ∉ data →
      binary_search_iterative data target = -1 ∧
      binary_search_recursive data target = -1) := by
  constructor
  · intro hmem
    have h := rec_found_of_mem data target hs hmem
    exact ⟨by rw [iter_eq_rec_default]; exact h, h⟩
  · intro hmem
    have h := rec_eq_neg_one_of_not_mem data target hmem
    exact ⟨by rw [iter_eq_rec_default]; exact h, h⟩

/-- Witness for C1 on `S = [1,3,5,7,9,11,13,15]`: target `13` is present and
both searches return a genuine hit; target `10` is absent and both searches
return `-1`. -/
theorem C1_binary_search_correct_witness :
    (found_at [1,3,5,7,9,11,13,15] 13
        (binary_search_iterative [1,3,5,7,9,11,13,15] 13) ∧
      found_at [1,3,5,7,9,11,13,15] 13
        (binary_search_recursive [1,3,5,7,9,11,13,15] 13)) ∧
    (binary_search_iterative [1,3,5,7,9,11,13,15] 10 = -1 ∧
      binary_search_recursive [1,3,5,7,9,11,13,15] 10 = -1) :=
  ⟨(C1_binary_search_correct [1,3,5,7,9,11,13,15] 13 (by decide)).1 (by decide),
    (C1_binary_search_correct [1,3,5,7,9,11,13,15] 10 (by decide)).2 (by decide)⟩

/-- C4: for every list (no ordering precondition) and target, `linear_search`
returns the smallest matching index when the target occurs, and `-1` when it
does not. -/
theorem C4_linear_search_first_hit (data : List ℤ) (target : ℤ) :
    (target ∈ data →
      ∃ k : ℕ, linear_search data target = (k : ℤ) ∧ k < data.length ∧
        data.getD k 0 = target ∧ ∀ j : ℕ, j < k → data.getD j 0 ≠ target) ∧
    (target ∉ data → linear_search data target = -1) :=
  ⟨linear_found_of_mem data target, linear_eq_neg_one_of_not_mem data target⟩

/-- Witness for C4 on the unsorted list `[7,2,9,1,5,13,3,11]`: target `9` is
found at the first matching index, and absent target `99` yields `-1`. -/
theorem C4_linear_search_first_hit_witness :
    (∃ k : ℕ, linear_search [7,2,9,1,5,13,3,11] 9 = (k : ℤ) ∧
      k < ([7,2,9,1,5,13,3,11] : List ℤ).length ∧
      ([7,2,9,1,5,13,3,11] : List ℤ).getD k 0 = 9 ∧
      ∀ j : ℕ, j < k → ([7,2,9,1,5,13,3,11] : List ℤ).getD j 0 ≠ 9) ∧
    linear_search [7,2,9,1,5,13,3,11] 99 = -1 :=
  ⟨(C4_linear_search_first_hit [7,2,9,1,5,13,3,11] 9).1 (by decide),
    (C4_linear_search_first_hit [7,2,9,1,5,13,3,11] 99).2 (by decide)⟩

/-- C5: on every list and target, the recursive bisection with default bounds
reads exactly the same sequence of midpoints as the iterative one and
returns exactly the same result. -/
theorem C5_iter_rec_identical (data : List ℤ) (target : ℤ) :
    binary_search_iterative_probes data target =
      binary_search_recursive_probes data target ∧
    binary_search_iterative data target = binary_search_recursive data target := by
  constructor
  · rw [binary_search_iterative_probes, binary_search_recursive_probes,
      iter_probes_eq_rec_probes]
  · exact iter_eq_rec_default data target

/-- C6: on a sorted list with no duplicate values, all three algorithms
agree on every target (present or absent). -/
theorem C6_cross_algorithm_agreement (data : List ℤ) (target : ℤ)
    (hs : data.Sorted (· ≤ ·)) (hn : data.Nodup) :
    binary_search_iterative data target = linear_search data target ∧
    binary_search_recursive data target = linear_search data target := by
  suffices h : binary_search_recursive data target = linear_search data target by
    exact ⟨(iter_eq_rec_default data target).trans h, h⟩
  by_cases hmem : target ∈ data
  · obtain ⟨h0, h1, h2⟩ := rec_found_of_mem data target hs hmem
    obtain ⟨k, hk1, hk2, hk3, hk4⟩ := linear_found_of_mem data target hmem
    rw [getD_eq_getElem_of_lt data h1] at h2
    rw [getD_eq_getElem_of_lt data hk2] at hk3
    have hik : (binary_search_recursive data target).toNat = k := by
      have := hn.get_inj_iff.mp (h2.trans hk3.symm)
      simpa using this
    rw [hk1]
    omega
  · rw [rec_eq_neg_one_of_not_mem data target hmem,
      linear_eq_neg_one_of_not_mem data target hmem]

/-- Witness for C6 on the sorted duplicate-free list `[1,3,5,7]`: all three
algorithms agree for the present target `5` and the absent target `4`. -/
theorem C6_cross_algorithm_agreement_witness :
    (binary_search_iterative [1,3,5,7] 5 = linear_search [1,3,5,7] 5 ∧
      binary_search_recursive [1,3,5,7] 5 = linear_search [1,3,5,7] 5) ∧
    (binary_search_iterative [1,3,5,7] 4 = linear_search [1,3,5,7] 4 ∧
      binary_search_recursive [1,3,5,7] 4 = linear_search [1,3,5,7] 4) :=
  ⟨C6_cross_algorithm_agreement [1,3,5,7] 5 (by decide) (by decide),
    C6_cross_algorithm_agreement [1,3,5,7] 4 (by decide) (by decide)⟩

/-- C7: both bisection searches terminate. The definitions of
`binary_search_iter_loop` and `binary_search_rec_aux` are accepted by
well-founded recursion on `intervalSize`; this theorem records why: on a
nonempty interval the midpoint stays inside the bounds (they never widen),
both successor intervals are strictly smaller, and consequently the number
of probes either search performs is bounded by the interval size, so the
recursion reaches a match or the empty interval in finitely many steps. -/
theorem C7_interval_shrinks (data : List ℤ) (target : ℤ) (left right : ℤ)
    (h : left ≤ right) :
    left ≤ middle_idx left right ∧ middle_idx left right ≤ right ∧
    intervalSize (middle_idx left right + 1) right < intervalSize left right ∧
    intervalSize left (middle_idx left right - 1) < intervalSize left right ∧
    (binary_search_iter_probes data target left right).length ≤
      intervalSize left right ∧
    (binary_search_rec_probes data target left right).length ≤
      intervalSize left right := by
  have hm := middle_idx_bounds h
  refine ⟨hm.1, hm.2, ?_, ?_, ?_, ?_⟩
  · unfold intervalSize
    omega
  · unfold intervalSize
    omega
  · rw [iter_probes_eq_rec_probes]
    exact rec_probes_length_le data target left right
  · exact rec_probes_length_le data target left right

/-- Witness for C7 on the interval `[0, 1]` of `[1,2]` with target `2`. -/
theorem C7_interval_shrinks_witness :
    (0 : ℤ) ≤ middle_idx 0 1 ∧ middle_idx 0 1 ≤ 1 ∧
    intervalSize (middle_idx 0 1 + 1) 1 < intervalSize 0 1 ∧
    intervalSize 0 (middle_idx 0 1 - 1) < intervalSize 0 1 ∧
    (binary_search_iter_probes [1,2] 2 0 1).length ≤ intervalSize 0 1 ∧
    (binary_search_rec_probes [1,2] 2 0 1).length ≤ intervalSize 0 1 :=
  C7_interval_shrinks [1,2] 2 0 1 (by norm_num)

/-- C8: on the empty list every search returns `-1` for every target without
examining any element (all three probe sequences are empty). -/
theorem C8_empty_list (target : ℤ) :
    linear_search [] target = -1 ∧
    binary_search_iterative [] target = -1 ∧
    binary_search_recursive [] target = -1 ∧
    linear_search_probes [] target = [] ∧
    binary_search_iterative_probes [] target = [] ∧
    binary_search_recursive_probes [] target = [] := by
  refine ⟨?_, ?_, ?_, ?_, ?_, ?_⟩
  · rw [linear_search, linear_search_from]
    norm_num
  · rw [binary_search_iterative, binary_search_iter_loop]
    norm_num
  · rw [binary_search_recursive, binary_search_rec_aux]
    norm_num
  · rw [linear_search_probes, linear_search_probes_from]
    norm_num
  · rw [binary_search_iterative_probes, binary_search_iter_probes]
    norm_num
  · rw [binary_search_recursive_probes, binary_search_rec_probes]
    norm_num

/-- C9: without any sortedness assumption, a result other than `-1` from
either binary search is always a true match: a non-negative in-range index
whose element equals the target. On unsorted input the only possible
deviation is a spurious `-1`, never a wrong index. -/
theorem C9_no_false_positive (data : List ℤ) (target : ℤ) :
    (binary_search_iterative data target ≠ -1 →
      found_at data target (binary_search_iterative data target)) ∧
    (binary_search_recursive data target ≠ -1 →
      found_at data target (binary_search_recursive data target)) := by
  have h := rec_default_sound data target
  have he := iter_eq_rec_default data target
  constructor
  · intro hne
    rw [he] at hne ⊢
    tauto
  · intro hne
    tauto

/-- Witness for C9 on the unsorted list `[3,1,2]`: the iterative search
returns `1 ≠ -1`, and that index is a true match. -/
theorem C9_no_false_positive_witness :
    binary_search_iterative [3,1,2] 1 ≠ -1 ∧
    found_at [3,1,2] 1 (binary_search_iterative [3,1,2] 1) := by
  have hne : binary_search_iterative [3,1,2] 1 ≠ -1 := by
    have : binary_search_iterative [3,1,2] 1 = 1 := by
      simp [binary_search_iterative, binary_search_iter_loop, middle_idx, pyget]
    rw [this]
    norm_num
  exact ⟨hne, (C9_no_false_positive [3,1,2] 1).1 hne⟩

/-- C10: neither bisection search, invoked through its public entry point,
ever reads an index out of bounds: every probed index `m` satisfies
`0 ≤ m < len(data)`, for every list (empty or not, sorted or not) and every
target. -/
theorem C10_probes_in_bounds (data : List ℤ) (target : ℤ) (m : ℤ)
    (hm : m ∈ binary_search_iterative_probes data target ∨
      m ∈ binary_search_recursive_probes data target) :
    0 ≤ m ∧ m < (data.length : ℤ) := by
  have hrec : m ∈ binary_search_rec_probes data target 0 ((data.length : ℤ) - 1) := by
    rcases hm with h | h
    · rw [binary_search_iterative_probes, iter_probes_eq_rec_probes] at h
      exact h
    · rw [binary_search_recursive_probes] at h
      exact h
  have := rec_probes_bounded data target 0 ((data.length : ℤ) - 1) m hrec
  omega

/-- Witness for C10: on `[1,2,3]` with target `2` the iterative search probes
index `1`, which is in bounds. -/
theorem C10_probes_in_bounds_witness :
    (0 : ℤ) ≤ 1 ∧ (1 : ℤ) < (([1,2,3] : List ℤ).length : ℤ) := by
  apply C10_probes_in_bounds [1,2,3] 2 1
  left
  simp [binary_search_iterative_probes, binary_search_iter_probes, middle_idx, pyget]

/-- C2 fails on the code: with preprocessing cost 10 and per-query savings 3
(linear 4, binary 1) the code reports `int(10/3) = 3` searches where the
claim demands `ceiling(10/3) = 4`; and with savings 0 the code prints no
break-even output at all rather than an explicit "never breaks even"
outcome. The spec-modelled analyzer is shown for contrast. -/
theorem C2_counterexample :
    break_even_report 10 4 1 = .report 3 ∧
    break_even_analyzer_spec 10 4 1 = .report 4 ∧
    BreakEvenResult.report 3 ≠ BreakEvenResult.report 4 ∧
    break_even_report 10 1 1 = .silent ∧
    break_even_analyzer_spec 10 1 1 = .neverBreaksEven ∧
    BreakEvenResult.silent ≠ BreakEvenResult.neverBreaksEven := by
  refine ⟨?_, ?_, by decide, ?_, ?_, by decide⟩
  · rw [break_even_report]
    norm_num [pyInt]
  · rw [break_even_analyzer_spec]
    norm_num
    rw [Int.ceil_eq_iff]
    norm_num
  · rw [break_even_report]
    norm_num
  · rw [break_even_analyzer_spec]
    norm_num

/-- C2 amended: when per-query savings (`linear_time - binary_time`) is
non-positive the analyzer produces no break-even output at all (in
particular never a negative or infinite count, but also no explicit "never
breaks even" notice); when savings is positive it reports the Python
`int`-truncation (here the floor) of preprocessing-cost / savings: the
greatest integer `n` with `n * savings ≤ cost`. Preprocessing cost 10 with
savings 2 still yields 5. -/
theorem C2_break_even_floor (sort_time linear_time binary_time : ℚ)
    (hsort : 0 ≤ sort_time) :
    (linear_time - binary_time ≤ 0 →
      break_even_report sort_time linear_time binary_time = .silent) ∧
    (0 < linear_time - binary_time →
      ∃ n : ℤ, break_even_report sort_time linear_time binary_time = .report n ∧
        0 ≤ n ∧ (n : ℚ) * (linear_time - binary_time) ≤ sort_time ∧
        sort_time < ((n : ℚ) + 1) * (linear_time - binary_time)) := by
  constructor
  · intro h
    rw [break_even_report]
    simp only [gt_iff_lt]
    rw [if_neg (not_lt.mpr h)]
  · intro h
    rw [break_even_report]
    simp only [gt_iff_lt]
    rw [if_pos h]
    set s := linear_time - binary_time with hsdef
    set q := sort_time / s with hqdef
    have hq0 : 0 ≤ q := div_nonneg hsort (le_of_lt h)
    have hpy : pyInt q = ⌊q⌋ := if_pos hq0
    refine ⟨⌊q⌋, by rw [hpy], Int.floor_nonneg.mpr hq0, ?_, ?_⟩
    · exact (le_div_iff₀ h).mp (Int.floor_le q)
    · exact (div_lt_iff₀ h).mp (Int.lt_floor_add_one q)

/-- Witness for C2 amended: savings 0 yields no output; cost 10 with savings
2 yields the reported count 5, which satisfies the floor characterization. -/
theorem C2_break_even_floor_witness :
    break_even_report 10 1 1 = .silent ∧
    break_even_report 10 3 1 = .report 5 ∧
    (∃ n : ℤ, break_even_report 10 3 1 = .report n ∧ 0 ≤ n ∧
      (n : ℚ) * (3 - 1) ≤ 10 ∧ (10 : ℚ) < ((n : ℚ) + 1) * (3 - 1)) := by
  refine ⟨(C2_break_even_floor 10 1 1 (by norm_num)).1 (by norm_num), ?_,
    (C2_break_even_floor 10 3 1 (by norm_num)).2 (by norm_num)⟩
  rw [break_even_report]
  norm_num [pyInt]

/-- C3 fails on the code as stated: with an empty target batch
`benchmark_algorithm` does fail (never NaN or infinity), but with the
`ZeroDivisionError` of its unguarded division, not with an explicitly
reported precondition error; the spec-modelled guarded runner is shown for
contrast. -/
theorem C3_counterexample :
    benchmark_algorithm 1 [] = Except.error PyExc.zeroDivisionError ∧
    benchmark_runner_spec 1 [] = Except.error PyExc.preconditionError ∧
    PyExc.zeroDivisionError ≠ PyExc.preconditionError := by
  refine ⟨?_, ?_, by decide⟩
  · rw [benchmark_algorithm, pydiv]
    norm_num
  · rw [benchmark_runner_spec]
    norm_num

/-- C3 amended: with an empty target batch the runner fails by raising the
`ZeroDivisionError` of the division itself — an unguarded crash, though
still an explicit failure and never NaN or infinity; with a non-empty batch
it returns the total batch duration divided by the number of targets. -/
theorem C3_benchmark_division (elapsed : ℚ) (targets : List ℤ) :
    (targets = [] →
      benchmark_algorithm elapsed targets =
        Except.error PyExc.zeroDivisionError) ∧
    (targets ≠ [] →
      benchmark_algorithm elapsed targets =
        Except.ok (elapsed / (targets.length : ℚ))) := by
  constructor
  · intro h
    subst h
    rw [benchmark_algorithm, pydiv]
    norm_num
  · intro h
    rw [benchmark_algorithm, pydiv, if_neg]
    exact Nat.cast_ne_zero.mpr (fun hlen => h (List.length_eq_zero.mp hlen))

/-- Witness for C3 amended: the empty batch raises `ZeroDivisionError`, and a
batch of three targets with total duration 6 yields mean duration 2. -/
theorem C3_benchmark_division_witness :
    benchmark_algorithm 1 [] = Except.error PyExc.zeroDivisionError ∧
    benchmark_algorithm 6 [4, 5, 6] = Except.ok 2 := by
  refine ⟨(C3_benchmark_division 1 []).1 rfl, ?_⟩
  have h := (C3_benchmark_division 6 [4, 5, 6]).2 (by decide)
  rw [h]
  norm_num
